import Mathlib

/-!
Verification development for the two algorithmic subsystems of the
local-stt-mcp repository: the chunked transcription assembler
(`TranscriptionAssembler` in `integration.ts`) and the diarization aligner
(`DiarizationAlignment` in `integration.ts`).

Numbers that are JavaScript IEEE doubles in the source are modelled as
rationals (`ℚ`); the float literal `0.1` is modelled as `1/10`.  Strings are
Lean `String`s; JavaScript `charCodeAt` is modelled by `Char.toNat`, which
agrees on all strings of Basic-Multilingual-Plane characters.
-/

/-- Timestamped transcription segment `{start, end, text}` as produced by the
recognition engine and consumed by both subsystems. -/
structure TranscriptionSegment where
  start : ℚ
  «end» : ℚ
  text : String
deriving DecidableEq, Repr

/-- Diarization span `{start, end, speaker}` (interface `DiarizationSegment`
in `types/index.ts`). -/
structure DiarizationSegment where
  start : ℚ
  «end» : ℚ
  speaker : String
deriving DecidableEq, Repr

/-- Speaker-attributed segment `{text, speaker, start, end, confidence}`
(interface `SpeakerSegment` in `types/index.ts`). -/
structure SpeakerSegment where
  text : String
  speaker : String
  start : ℚ
  «end» : ℚ
  confidence : ℚ
deriving DecidableEq, Repr

/-- Transcription result `{text, segments?, language?, model_used,
processing_time}` (interface `TranscriptionResult` in `types/index.ts`);
optional fields are `Option`s. -/
structure TranscriptionResult where
  text : String
  segments : Option (List TranscriptionSegment)
  language : Option String
  model_used : String
  processing_time : ℚ
deriving DecidableEq, Repr, Inhabited

/-- Per-chunk transcription `{chunkIndex, startOffset, result}` (interface
`ChunkTranscription` in `integration.ts`). -/
structure ChunkTranscription where
  chunkIndex : ℤ
  startOffset : ℚ
  result : TranscriptionResult
deriving DecidableEq, Repr, Inhabited

/-- Assembly options with the defaults destructured at the top of
`assembleTranscriptions`. -/
structure AssemblyOptions where
  overlapSeconds : ℚ := 30
  removeOverlapDuplicates : Bool := true
  preserveTimestamps : Bool := true
deriving DecidableEq, Repr

/-- Alignment options with the defaults destructured at the top of
`alignTranscriptionWithSpeakers`; the float defaults `0.1` are `1/10`. -/
structure AlignmentOptions where
  overlapThreshold : ℚ := 1/10
  mergeThreshold : ℚ := 1
  confidenceThreshold : ℚ := 1/10
deriving DecidableEq, Repr

/-- `String.prototype.padStart(targetLength, padChar)`: left-pad with
`padChar` up to `targetLength` (no-op when already at least that long). -/
def padStart (s : String) (targetLength : Nat) (padChar : Char) : String :=
  String.mk (List.replicate (targetLength - s.length) padChar) ++ s

/-- `text.split('\n')` on the character list: split at every newline,
keeping empty pieces (the empty text yields one empty piece, as in
JavaScript). -/
def splitLines : List Char → List (List Char)
  | [] => [[]]
  | c :: cs =>
    if c = '\n' then [] :: splitLines cs
    else
      match splitLines cs with
      | l :: ls => (c :: l) :: ls
      | [] => [[c]]

/-- `String.prototype.trim()` on the character list: strip whitespace from
both ends. -/
def trimChars (l : List Char) : List Char :=
  ((l.dropWhile Char.isWhitespace).reverse.dropWhile Char.isWhitespace).reverse

/-- `lines.join('\n')` on character lists. -/
def joinLines : List (List Char) → List Char
  | [] => []
  | [l] => l
  | l :: ls => l ++ '\n' :: joinLines ls

/-- `String.prototype.trim()`. -/
def jsTrim (s : String) : String :=
  String.mk (trimChars s.data)

/-- `text.endsWith(' ')`: the last character is a space. -/
def endsWithSpace (s : String) : Bool :=
  s.data.getLast? = some ' '

/-- `text.startsWith(' ')`: the first character is a space. -/
def startsWithSpace (s : String) : Bool :=
  s.data.head? = some ' '

/-- JavaScript `%` (C `fmod`) on the arguments used in `formatTimestamp`;
this formula agrees with `fmod` whenever `0 ≤ a` and `0 < b`, which is the
only regime the formatter is specified on. -/
def jsMod (a b : ℚ) : ℚ :=
  a - b * (⌊a / b⌋ : ℤ)

/-- `formatTimestamp(seconds, useSRTFormat)` from `integration.ts` (the two
identical private copies in `TranscriptionAssembler` and
`DiarizationAlignment`): floor out hours, minutes, seconds, milliseconds,
zero-pad and join with `:` and the format-dependent separator. -/
def formatTimestamp (seconds : ℚ) (useSRTFormat : Bool) : String :=
  let hours := (⌊seconds / 3600⌋).toNat
  let minutes := (⌊jsMod seconds 3600 / 60⌋).toNat
  let secs := (⌊jsMod seconds 60⌋).toNat
  let ms := (⌊jsMod seconds 1 * 1000⌋).toNat
  let separator := if useSRTFormat then "," else "."
  padStart (Nat.repr hours) 2 '0' ++ ":" ++ padStart (Nat.repr minutes) 2 '0' ++ ":" ++
    padStart (Nat.repr secs) 2 '0' ++ separator ++ padStart (Nat.repr ms) 3 '0'

/-- `adjustSegmentTimestamps(segments, startOffset, ...)`: translate every
segment by the chunk's start offset.  The source function also receives
`isFirstChunk`, `isLastChunk` and `overlapSeconds` but never reads them, so
they are dropped here. -/
def adjustSegmentTimestamps (segments : List TranscriptionSegment) (startOffset : ℚ) :
    List TranscriptionSegment :=
  segments.map fun segment =>
    { start := segment.start + startOffset
      «end» := segment.«end» + startOffset
      text := segment.text }

/-- `removeOverlapSegments(newSegments, existingSegments, overlapSeconds)`:
cut off every new segment that starts before
`lastExisting.end - overlapSeconds`; `findIndex` returning `-1` is the
`none` branch. -/
def removeOverlapSegments (newSegments existingSegments : List TranscriptionSegment)
    (overlapSeconds : ℚ) : List TranscriptionSegment :=
  match existingSegments.getLast? with
  | none => newSegments
  | some lastExisting =>
    let overlapCutoffTime := lastExisting.«end» - overlapSeconds
    match newSegments.findIdx? (fun segment => overlapCutoffTime ≤ segment.start) with
    | none => []
    | some firstNonOverlapIndex => newSegments.drop firstNonOverlapIndex

/-- `removeOverlapText(text, overlapSeconds)`: drop blank lines, then strip
the first `min(2, floor(lines.length * 0.1))` remaining lines; the text is
returned untouched when at most one non-blank line exists.  The
`overlapSeconds` argument is accepted but unused, exactly as in the source. -/
def removeOverlapText (text : String) (overlapSeconds : ℚ) : String :=
  let lines := (splitLines text.data).filter (fun line => trimChars line ≠ [])
  if lines.length ≤ 1 then text
  else
    let linesToRemove := min 2 ⌊(lines.length : ℚ) * (1/10)⌋₊
    String.mk (joinLines (lines.drop linesToRemove))

/-- Running state of the assembly loop: the accumulated text, segment list
and total processing time. -/
structure AssemblyState where
  assembledText : String
  assembledSegments : List TranscriptionSegment
  totalProcessingTime : ℚ
deriving DecidableEq, Repr

/-- One iteration of the `for` loop in `assembleTranscriptions`: accumulate
processing time, append (overlap-filtered) adjusted segments, and append the
chunk text with the single-space joining rule. -/
def assembleChunkStep (overlapSeconds : ℚ) (removeOverlapDuplicates preserveTimestamps : Bool)
    (isFirstChunk : Bool) (st : AssemblyState) (chunk : ChunkTranscription) : AssemblyState :=
  let totalProcessingTime := st.totalProcessingTime + chunk.result.processing_time
  let assembledSegments :=
    match preserveTimestamps, chunk.result.segments with
    | true, some segs =>
      let adjustedSegments := adjustSegmentTimestamps segs chunk.startOffset
      if removeOverlapDuplicates && !isFirstChunk then
        st.assembledSegments ++
          removeOverlapSegments adjustedSegments st.assembledSegments overlapSeconds
      else
        st.assembledSegments ++ adjustedSegments
    | _, _ => st.assembledSegments
  let chunkText :=
    if removeOverlapDuplicates && !isFirstChunk then
      removeOverlapText chunk.result.text overlapSeconds
    else chunk.result.text
  let assembledText :=
    if !isFirstChunk && st.assembledText != "" && chunkText != "" &&
        !(endsWithSpace st.assembledText) && !(startsWithSpace chunkText) then
      st.assembledText ++ " " ++ chunkText
    else st.assembledText ++ chunkText
  { assembledText := assembledText
    assembledSegments := assembledSegments
    totalProcessingTime := totalProcessingTime }

/-- The `for` loop of `assembleTranscriptions` over the sorted chunks; the
flag records whether the chunk at the head is the first chunk. -/
def assembleLoop (overlapSeconds : ℚ) (removeOverlapDuplicates preserveTimestamps : Bool) :
    List ChunkTranscription → Bool → AssemblyState → AssemblyState
  | [], _, st => st
  | chunk :: rest, isFirstChunk, st =>
    assembleLoop overlapSeconds removeOverlapDuplicates preserveTimestamps rest false
      (assembleChunkStep overlapSeconds removeOverlapDuplicates preserveTimestamps
        isFirstChunk st chunk)

/-- Stable insertion of a chunk into a list sorted ascending by
`chunkIndex`: the chunk goes after every element whose index is `≤` its
own. -/
def insertByIdx (c : ChunkTranscription) : List ChunkTranscription → List ChunkTranscription
  | [] => [c]
  | d :: ds => if c.chunkIndex < d.chunkIndex then c :: d :: ds else d :: insertByIdx c ds

/-- `chunks.sort((a, b) => a.chunkIndex - b.chunkIndex)`: stable ascending
sort by chunk index (ECMAScript `Array.prototype.sort` is stable). -/
def sortByIndex (chunks : List ChunkTranscription) : List ChunkTranscription :=
  chunks.foldl (fun acc c => insertByIdx c acc) []

/-- `assembleTranscriptions(chunks, options)` from `integration.ts`: empty
input gives an empty transcript, a single chunk is returned unchanged, and
multiple chunks are sorted by index and folded through the assembly loop. -/
def assembleTranscriptions (chunks : List ChunkTranscription)
    (options : AssemblyOptions) : TranscriptionResult :=
  match chunks with
  | [] =>
    { text := "", segments := none, language := none
      model_used := "base.en", processing_time := 0 }
  | [chunk] => chunk.result
  | _ =>
    let sortedChunks := sortByIndex chunks
    let firstChunk := sortedChunks.headI
    let st := assembleLoop options.overlapSeconds options.removeOverlapDuplicates
      options.preserveTimestamps sortedChunks true
      { assembledText := "", assembledSegments := [], totalProcessingTime := 0 }
    { text := jsTrim st.assembledText
      segments :=
        if options.preserveTimestamps && decide (0 < st.assembledSegments.length) then
          some st.assembledSegments
        else none
      language := firstChunk.result.language
      model_used := firstChunk.result.model_used
      processing_time := st.totalProcessingTime }

/-- `calculateOverlap(seg1, seg2)`: length of the intersection of the two
time intervals, clamped at zero.  The source takes two `{start, end}`
records; here the four endpoints are passed directly. -/
def calculateOverlap (s1 e1 s2 e2 : ℚ) : ℚ :=
  max 0 (min e1 e2 - max s1 s2)

/-- Wrap an integer into the signed 32-bit range, as JavaScript `ToInt32`
(applied by `<<` and `&`) does. -/
def toInt32 (n : ℤ) : ℤ :=
  (n + 2 ^ 31) % 2 ^ 32 - 2 ^ 31

/-- One iteration of `hashString`: `hash = ((hash << 5) - hash) + char;
hash = hash & hash`.  `hash << 5` wraps the product to 32 bits and the
self-`&` wraps the sum back to 32 bits. -/
def hashStep (hash : ℤ) (c : Char) : ℤ :=
  toInt32 (toInt32 (hash * 32) - hash + c.toNat)

/-- `hashString(str)`: fold `hashStep` over the characters starting from 0,
then `Math.abs`. -/
def hashString (str : String) : ℕ :=
  (str.data.foldl hashStep 0).natAbs

/-- First maximal run of decimal digits in a character list: the JavaScript
regular-expression match `label.match(/(\d+)/)` (`\d` is ASCII `0-9`,
matched by `Char.isDigit`). -/
def firstDigitRun : List Char → Option (List Char)
  | [] => none
  | c :: cs => if c.isDigit then some (c :: cs.takeWhile Char.isDigit) else firstDigitRun cs

/-- `parseInt` on a run of decimal digits. -/
def digitsToNat (ds : List Char) : ℕ :=
  ds.foldl (fun n c => 10 * n + (c.toNat - '0'.toNat)) 0

/-- `normalizeSpeakerLabel(label)`: first embedded digit run parsed and
zero-padded to at least two digits behind `speaker`; if no digit exists,
the hash of the label modulo 10 plus one is used instead. -/
def normalizeSpeakerLabel (label : String) : String :=
  match firstDigitRun label.data with
  | some ds => "speaker" ++ padStart (Nat.repr (digitsToNat ds)) 2 '0'
  | none => "speaker" ++ padStart (Nat.repr (hashString label % 10 + 1)) 2 '0'

/-- The segment pushed by the `else` branch of the alignment loop: sentinel
speaker `"speaker_unknown"` with confidence 0. -/
def unknownSegment (t : TranscriptionSegment) : SpeakerSegment :=
  { text := t.text, speaker := "speaker_unknown"
    start := t.start, «end» := t.«end», confidence := 0 }

/-- Body of the inner `for` loop over the diarization spans: replace the
best candidate when the overlap strictly beats the running maximum. -/
def bestMatchStep (transSegment : TranscriptionSegment)
    (acc : Option DiarizationSegment × ℚ) (diarSegment : DiarizationSegment) :
    Option DiarizationSegment × ℚ :=
  let overlap := calculateOverlap transSegment.start transSegment.«end»
    diarSegment.start diarSegment.«end»
  if acc.2 < overlap then (some diarSegment, overlap) else acc

/-- The inner `for` loop over the diarization spans: the span with the
strictly greatest overlap so far, together with that overlap (`(null, 0)`
initially; first-seen wins exact ties). -/
def findBestMatch (transSegment : TranscriptionSegment)
    (diarization : List DiarizationSegment) : Option DiarizationSegment × ℚ :=
  diarization.foldl (bestMatchStep transSegment) (none, 0)

/-- Body of the outer alignment loop for one transcription segment: push a
speaker-attributed segment when the best overlap beats `overlapThreshold`
and the confidence reaches `confidenceThreshold`, push the unknown-speaker
sentinel when the overlap test fails, and push nothing at all when the
overlap test passes but the confidence test fails. -/
def alignSegment (overlapThreshold confidenceThreshold : ℚ)
    (diarization : List DiarizationSegment) (transSegment : TranscriptionSegment) :
    List SpeakerSegment :=
  match findBestMatch transSegment diarization with
  | (some bestMatch, maxOverlap) =>
    if overlapThreshold < maxOverlap then
      let confidence := maxOverlap / (transSegment.«end» - transSegment.start)
      if confidenceThreshold ≤ confidence then
        [{ text := transSegment.text
           speaker := normalizeSpeakerLabel bestMatch.speaker
           start := transSegment.start
           «end» := transSegment.«end»
           confidence := confidence }]
      else []
    else [unknownSegment transSegment]
  | (none, _) => [unknownSegment transSegment]

/-- `Math.max(20, ...diarization.map(d => d.end))`: the synthetic
pseudo-segment's end time. -/
def fallbackEnd (diarization : List DiarizationSegment) : ℚ :=
  diarization.foldl (fun m d => max m d.«end») 20

/-- Transcription segments actually aligned: the provided list when present
and non-empty, otherwise one synthetic segment carrying the full text. -/
def transcriptionSegmentsOf (transcription : TranscriptionResult)
    (diarization : List DiarizationSegment) : List TranscriptionSegment :=
  match transcription.segments with
  | some segs =>
    if 0 < segs.length then segs
    else [{ start := 0, «end» := fallbackEnd diarization, text := transcription.text }]
  | none => [{ start := 0, «end» := fallbackEnd diarization, text := transcription.text }]

/-- The pre-merge alignment output: the concatenation of the per-segment
results of the outer loop. -/
def alignSegments (overlapThreshold confidenceThreshold : ℚ)
    (transcriptionSegments : List TranscriptionSegment)
    (diarization : List DiarizationSegment) : List SpeakerSegment :=
  (transcriptionSegments.map
    (alignSegment overlapThreshold confidenceThreshold diarization)).flatten

/-- The merge scan of `postProcessAlignment` with the accumulator made
explicit: merge the next segment into the accumulator while the speaker
matches and the gap is below `mergeThreshold`, otherwise emit the
accumulator and restart from the next segment. -/
def mergeLoop (mergeThreshold : ℚ) (current : SpeakerSegment) :
    List SpeakerSegment → List SpeakerSegment
  | [] => [current]
  | segment :: rest =>
    if current.speaker = segment.speaker ∧ segment.start - current.«end» < mergeThreshold then
      mergeLoop mergeThreshold
        { text := current.text ++ " " ++ segment.text
          speaker := current.speaker
          start := current.start
          «end» := segment.«end»
          confidence := min current.confidence segment.confidence } rest
    else current :: mergeLoop mergeThreshold segment rest

/-- `postProcessAlignment(segments, mergeThreshold)`: empty input is
returned as-is, otherwise the merge scan runs with the first segment as
initial accumulator. -/
def postProcessAlignment (segments : List SpeakerSegment) (mergeThreshold : ℚ) :
    List SpeakerSegment :=
  match segments with
  | [] => []
  | s :: rest => mergeLoop mergeThreshold s rest

/-- `alignTranscriptionWithSpeakers(transcription, diarization, options)`:
align every transcription segment, then run the merge pass. -/
def alignTranscriptionWithSpeakers (transcription : TranscriptionResult)
    (diarization : List DiarizationSegment) (options : AlignmentOptions) :
    List SpeakerSegment :=
  postProcessAlignment
    (alignSegments options.overlapThreshold options.confidenceThreshold
      (transcriptionSegmentsOf transcription diarization) diarization)
    options.mergeThreshold

/-- Recognizer for the label shapes the aligner can emit: the sentinel
`"speaker_unknown"`, or `"speaker"` followed by at least two decimal
digits. -/
def isNormalizedLabel (s : String) : Bool :=
  s == "speaker_unknown" ||
    (match s.data with
     | 's' :: 'p' :: 'e' :: 'a' :: 'k' :: 'e' :: 'r' :: ds =>
       decide (2 ≤ ds.length) && ds.all Char.isDigit
     | _ => false)

/-- Chunk 0 of the spec's concrete assembly scenario A. -/
def scenarioChunk0 : ChunkTranscription :=
  { chunkIndex := 0, startOffset := 0,
    result := { text := "", segments := some [⟨0, 5, "hello"⟩, ⟨5, 10, "world"⟩],
                language := none, model_used := "m", processing_time := 0 } }

/-- Chunk 1 of the spec's concrete assembly scenario A (`startOffset = 8`). -/
def scenarioChunk1 : ChunkTranscription :=
  { chunkIndex := 1, startOffset := 8,
    result := { text := "", segments := some [⟨0, 3, "world2"⟩, ⟨3, 6, "foo"⟩],
                language := none, model_used := "m", processing_time := 0 } }

/-- A chunk text with ten non-blank lines, enough to make the plain-text
heuristic strip one line. -/
def heuristicText : String :=
  "l1\nl2\nl3\nl4\nl5\nl6\nl7\nl8\nl9\nl10"

/-- First chunk of the text-heuristic scenario: plain text and one timed
segment. -/
def heuristicChunk0 : ChunkTranscription :=
  { chunkIndex := 0, startOffset := 0,
    result := { text := "c0", segments := some [⟨0, 5, "a"⟩],
                language := none, model_used := "m", processing_time := 0 } }

/-- Second chunk of the text-heuristic scenario: it HAS timed segments and
still a ten-line plain text. -/
def heuristicChunk1 : ChunkTranscription :=
  { chunkIndex := 1, startOffset := 8,
    result := { text := heuristicText, segments := some [⟨0, 3, "b"⟩],
                language := none, model_used := "m", processing_time := 0 } }

/-- Concrete transcription for alignment witnesses: one segment on
`[0, 10]`. -/
def witnessTranscription : TranscriptionResult :=
  { text := "hi", segments := some [⟨0, 10, "hi"⟩], language := none,
    model_used := "m", processing_time := 0 }

/-- Concrete diarization list for alignment witnesses: one span on `[0, 5]`
with a digit-free speaker id. -/
def witnessDiarization : List DiarizationSegment :=
  [⟨0, 5, "A"⟩]

/-! ## Merge-pass lemmas -/

/-- The merge scan always emits a non-empty list whose head keeps the
accumulator's speaker and start. -/
theorem mergeLoop_cons_shape (mergeThreshold : ℚ) (l : List SpeakerSegment)
    (current : SpeakerSegment) :
    ∃ z t, mergeLoop mergeThreshold current l = z :: t ∧
      z.speaker = current.speaker ∧ z.start = current.start := by
  induction l generalizing current with
  | nil => exact ⟨current, [], rfl, rfl, rfl⟩
  | cons segment rest ih =>
    by_cases h : current.speaker = segment.speaker ∧
        segment.start - current.«end» < mergeThreshold
    · simp only [mergeLoop, if_pos h]
      obtain ⟨z, t, hz, hs, hst⟩ := ih _
      exact ⟨z, t, hz, hs, hst⟩
    · simp only [mergeLoop, if_neg h]
      exact ⟨current, _, rfl, rfl, rfl⟩

/-- The merge scan cannot emit more segments than it consumes plus the one
accumulator. -/
theorem mergeLoop_length_le (mergeThreshold : ℚ) (l : List SpeakerSegment)
    (current : SpeakerSegment) :
    (mergeLoop mergeThreshold current l).length ≤ l.length + 1 := by
  induction l generalizing current with
  | nil => simp [mergeLoop]
  | cons segment rest ih =>
    by_cases h : current.speaker = segment.speaker ∧
        segment.start - current.«end» < mergeThreshold
    · simp only [mergeLoop, if_pos h, List.length_cons]
      exact (ih _).trans (by omega)
    · simp only [mergeLoop, if_neg h, List.length_cons]
      have := ih segment
      omega

/-- No two adjacent segments emitted by the merge scan are still mergeable:
same speaker and gap below the threshold never survive together. -/
theorem mergeLoop_chain (mergeThreshold : ℚ) (l : List SpeakerSegment)
    (current : SpeakerSegment) :
    List.Chain'
      (fun a b => ¬(a.speaker = b.speaker ∧ b.start - a.«end» < mergeThreshold))
      (mergeLoop mergeThreshold current l) := by
  induction l generalizing current with
  | nil => simp [mergeLoop]
  | cons segment rest ih =>
    by_cases h : current.speaker = segment.speaker ∧
        segment.start - current.«end» < mergeThreshold
    · simp only [mergeLoop, if_pos h]
      exact ih _
    · simp only [mergeLoop, if_neg h]
      obtain ⟨z, t, hz, hs, hst⟩ := mergeLoop_cons_shape mergeThreshold rest segment
      rw [hz]
      refine List.chain'_cons.mpr ⟨?_, hz ▸ ih segment⟩
      rw [hs, hst]
      exact h

/-- C3: the merge pass returns at most as many segments as it received, and
no two consecutive output segments both carry the same speaker and sit
closer than `mergeThreshold`. -/
theorem merge_pass_shrinks_and_separates (segments : List SpeakerSegment)
    (mergeThreshold : ℚ) :
    (postProcessAlignment segments mergeThreshold).length ≤ segments.length ∧
    List.Chain'
      (fun a b => ¬(a.speaker = b.speaker ∧ b.start - a.«end» < mergeThreshold))
      (postProcessAlignment segments mergeThreshold) := by
  match segments with
  | [] => exact ⟨Nat.le_refl 0, List.chain'_nil⟩
  | s :: rest =>
    refine ⟨?_, mergeLoop_chain mergeThreshold rest s⟩
    simpa [postProcessAlignment] using mergeLoop_length_le mergeThreshold rest s

/-- C4 counterexample: merging a same-speaker pair whose second segment ends
earlier gives the second end (49/5), not the later of the two ends (10). -/
theorem merge_end_not_max_counterexample :
    postProcessAlignment
      [⟨"a", "speaker01", 0, 10, 1⟩, ⟨"b", "speaker01", 19/2, 49/5, 1⟩] 1 =
      [⟨"a b", "speaker01", 0, 49/5, 1⟩] ∧
    ¬((49 : ℚ)/5 = max 10 (49/5)) := by
  constructor
  · norm_num [postProcessAlignment, mergeLoop]
    decide
  · norm_num

/-- C4 (amended): when the accumulator and the next segment share a speaker
and the gap is below the threshold, the merged segment keeps the
accumulator's start, space-joins the texts, takes the minimum confidence,
and takes the NEXT segment's end (not the later of the two ends). -/
theorem merge_step_update (current segment : SpeakerSegment)
    (rest : List SpeakerSegment) (mergeThreshold : ℚ)
    (hspk : current.speaker = segment.speaker)
    (hgap : segment.start - current.«end» < mergeThreshold) :
    postProcessAlignment (current :: segment :: rest) mergeThreshold =
      postProcessAlignment
        ({ text := current.text ++ " " ++ segment.text
           speaker := current.speaker
           start := current.start
           «end» := segment.«end»
           confidence := min current.confidence segment.confidence } :: rest)
        mergeThreshold := by
  simp only [postProcessAlignment, mergeLoop, if_pos (And.intro hspk hgap)]

/-- Witness for the amended C4 theorem at a concrete same-speaker pair. -/
theorem merge_step_update_witness :
    postProcessAlignment [⟨"a", "s0", 0, 1, 1⟩, ⟨"b", "s0", 1, 2, 1/2⟩] 1 =
      postProcessAlignment [⟨"a b", "s0", 0, 2, min 1 (1/2)⟩] 1 :=
  merge_step_update ⟨"a", "s0", 0, 1, 1⟩ ⟨"b", "s0", 1, 2, 1/2⟩ [] 1 rfl (by norm_num)

/-- C5: a single-chunk list is returned unchanged by the assembler. -/
theorem assemble_single_chunk_identity (chunk : ChunkTranscription)
    (options : AssemblyOptions) :
    assembleTranscriptions [chunk] options = chunk.result := rfl

/-! ## Assembly overlap removal -/

/-- On a list sorted ascending by start, dropping from the first index whose
start clears the cutoff is the same as filtering by the cutoff. -/
theorem sorted_cut_eq_filter (cutoff : ℚ) (l : List TranscriptionSegment)
    (hl : l.Pairwise (fun a b => a.start ≤ b.start)) :
    (match l.findIdx? (fun segment => cutoff ≤ segment.start) with
     | none => ([] : List TranscriptionSegment)
     | some i => l.drop i) =
      l.filter (fun segment => cutoff ≤ segment.start) := by
  induction l with
  | nil => simp
  | cons a t ih =>
    rw [List.pairwise_cons] at hl
    obtain ⟨ha_all, ht⟩ := hl
    by_cases ha : cutoff ≤ a.start
    · have hpa : (fun segment : TranscriptionSegment =>
          decide (cutoff ≤ segment.start)) a = true := by
        simpa using ha
      simp only [List.findIdx?_cons, hpa, if_true, List.drop_zero, List.filter_cons,
        if_pos hpa]
      congr 1
      exact (List.filter_eq_self.mpr fun b hb =>
        decide_eq_true (ha.trans (ha_all b hb))).symm
    · have hpa : (fun segment : TranscriptionSegment =>
          decide (cutoff ≤ segment.start)) a = false := by
        simpa using ha
      simp only [List.findIdx?_cons, hpa, Bool.false_eq_true, if_false,
        List.findIdx?_succ, List.filter_cons]
      rw [← ih ht]
      cases h : t.findIdx? (fun segment => cutoff ≤ segment.start) with
      | none => simp [h]
      | some i => simp [h]

/-- C2: overlap removal on a sorted non-first chunk keeps exactly the
translated segments whose start is at or past
`lastAssembled.end - overlapSeconds` (boundary kept), translation adds the
chunk offset to both endpoints, and the spec's concrete scenario A
assembles as stated. -/
theorem assembly_overlap_removal_spec :
    (∀ (newSegments es : List TranscriptionSegment) (lastSeg : TranscriptionSegment)
        (overlapSeconds : ℚ),
        newSegments.Pairwise (fun a b => a.start ≤ b.start) →
        removeOverlapSegments newSegments (es ++ [lastSeg]) overlapSeconds =
          newSegments.filter
            (fun segment => lastSeg.«end» - overlapSeconds ≤ segment.start)) ∧
    (∀ (segments : List TranscriptionSegment) (startOffset : ℚ),
        adjustSegmentTimestamps segments startOffset =
          segments.map (fun s => ⟨s.start + startOffset, s.«end» + startOffset, s.text⟩)) ∧
    (assembleTranscriptions [scenarioChunk0, scenarioChunk1]
        { overlapSeconds := 2 }).segments =
      some [⟨0, 5, "hello"⟩, ⟨5, 10, "world"⟩, ⟨8, 11, "world2"⟩, ⟨11, 14, "foo"⟩] := by
  refine ⟨?_, fun segments startOffset => rfl, ?_⟩
  · intro newSegments es lastSeg overlapSeconds hsorted
    unfold removeOverlapSegments
    rw [List.getLast?_concat]
    exact sorted_cut_eq_filter (lastSeg.«end» - overlapSeconds) newSegments hsorted
  · norm_num [assembleTranscriptions, scenarioChunk0, scenarioChunk1, sortByIndex,
      insertByIdx, assembleLoop, assembleChunkStep, adjustSegmentTimestamps,
      removeOverlapSegments, removeOverlapText, splitLines, trimChars, joinLines,
      jsTrim, List.findIdx?, List.getLast?]

/-- Witness for C2's sorted-cut clause on the concrete scenario-A data. -/
theorem assembly_overlap_removal_witness :
    removeOverlapSegments [⟨8, 11, "world2"⟩, ⟨11, 14, "foo"⟩]
        ([⟨0, 5, "hello"⟩] ++ [⟨5, 10, "world"⟩]) 2 =
      [⟨8, 11, "world2"⟩, ⟨11, 14, "foo"⟩] := by
  have h := assembly_overlap_removal_spec.1 [⟨8, 11, "world2"⟩, ⟨11, 14, "foo"⟩]
    [⟨0, 5, "hello"⟩] ⟨5, 10, "world"⟩ 2 (by norm_num [List.pairwise_cons])
  rw [h]
  norm_num [List.filter]

/-! ## Alignment branch behaviour -/

/-- C1 counterexample: with the default thresholds, a transcription segment
whose best intersection (1/2) beats the overlap threshold (1/10) while its
confidence ((1/2)/10) misses the confidence threshold is omitted from the
pre-merge output entirely, and the sentinel the code uses elsewhere is
`"speaker_unknown"`, not `"unknown speaker"`. -/
theorem align_dropped_counterexample :
    alignSegments (1/10) (1/10) [⟨0, 10, "x"⟩] [⟨0, 1/2, "S_A"⟩] = [] ∧
    findBestMatch ⟨0, 10, "x"⟩ [⟨0, 1/2, "S_A"⟩] = (some ⟨0, 1/2, "S_A"⟩, 1/2) ∧
    (1/10 : ℚ) < 1/2 ∧ (1/2 : ℚ) / (10 - 0) < 1/10 ∧
    ¬((unknownSegment ⟨0, 10, "x"⟩).speaker = "unknown speaker") := by
  refine ⟨?_, ?_, by norm_num, by norm_num, by decide⟩
  · norm_num [alignSegments, alignSegment, findBestMatch, bestMatchStep, calculateOverlap]
  · norm_num [findBestMatch, bestMatchStep, calculateOverlap]

/-- C1 (amended): a segment whose best intersection does not exceed
`overlapThreshold` still yields exactly one pre-merge output segment,
carrying the literal sentinel `"speaker_unknown"` and confidence 0; but a
segment whose best intersection exceeds `overlapThreshold` while its
confidence falls below `confidenceThreshold` is omitted from the pre-merge
output. -/
theorem align_unknown_or_dropped :
    (∀ (overlapThreshold confidenceThreshold : ℚ)
        (diarization : List DiarizationSegment) (transSegment : TranscriptionSegment),
        (findBestMatch transSegment diarization).2 ≤ overlapThreshold →
        alignSegment overlapThreshold confidenceThreshold diarization transSegment =
          [unknownSegment transSegment] ∧
        (unknownSegment transSegment).speaker = "speaker_unknown" ∧
        (unknownSegment transSegment).confidence = 0) ∧
    (∀ (overlapThreshold confidenceThreshold : ℚ)
        (diarization : List DiarizationSegment) (transSegment : TranscriptionSegment)
        (bestMatch : DiarizationSegment),
        (findBestMatch transSegment diarization).1 = some bestMatch →
        overlapThreshold < (findBestMatch transSegment diarization).2 →
        (findBestMatch transSegment diarization).2 /
            (transSegment.«end» - transSegment.start) < confidenceThreshold →
        alignSegment overlapThreshold confidenceThreshold diarization transSegment = []) := by
  constructor
  · intro overlapThreshold confidenceThreshold diarization transSegment h
    refine ⟨?_, rfl, rfl⟩
    rcases hfb : findBestMatch transSegment diarization with ⟨b, mo⟩
    rw [hfb] at h
    unfold alignSegment
    rw [hfb]
    cases b with
    | none => rfl
    | some bestMatch => simp [if_neg (not_lt.mpr h)]
  · intro overlapThreshold confidenceThreshold diarization transSegment bestMatch
      h1 h2 h3
    rcases hfb : findBestMatch transSegment diarization with ⟨b, mo⟩
    rw [hfb] at h1 h2 h3
    cases b with
    | none => simp at h1
    | some b' =>
      unfold alignSegment
      rw [hfb]
      simp only at h1 h2 h3
      simp [if_pos h2, if_neg (not_le.mpr h3)]

/-- Witness for the amended C1 theorem: the no-match branch on an empty
diarization list and the dropped low-confidence branch on the concrete
counterexample data. -/
theorem align_unknown_or_dropped_witness :
    (alignSegment (1/10) (1/10) [] ⟨0, 10, "x"⟩ = [unknownSegment ⟨0, 10, "x"⟩]) ∧
    (alignSegment (1/10) (1/10) [⟨0, 1/2, "S_A"⟩] ⟨0, 10, "x"⟩ = []) := by
  constructor
  · exact (align_unknown_or_dropped.1 (1/10) (1/10) [] ⟨0, 10, "x"⟩
      (by norm_num [findBestMatch])).1
  · exact align_unknown_or_dropped.2 (1/10) (1/10) [⟨0, 1/2, "S_A"⟩] ⟨0, 10, "x"⟩
      ⟨0, 1/2, "S_A"⟩ (by norm_num [findBestMatch, bestMatchStep, calculateOverlap])
      (by norm_num [findBestMatch, bestMatchStep, calculateOverlap])
      (by norm_num [findBestMatch, bestMatchStep, calculateOverlap])

/-! ## Speaker label normalization -/

/-- `takeWhile` over an append stops exactly at the boundary when every
left element satisfies the predicate and the first right element does
not. -/
theorem takeWhile_append_of_all (p : Char → Bool) (xs ys : List Char)
    (hx : ∀ c ∈ xs, p c = true) (hy : ∀ c ∈ ys.take 1, p c = false) :
    (xs ++ ys).takeWhile p = xs := by
  induction xs with
  | nil =>
    cases ys with
    | nil => rfl
    | cons y ys' =>
      have : p y = false := hy y (by simp)
      simp [List.takeWhile_cons, this]
  | cons x xs' ih =>
    have hx0 : p x = true := hx x (by simp)
    simp only [List.cons_append, List.takeWhile_cons, hx0, if_true]
    rw [ih (fun c hc => hx c (by simp [hc]))]

/-- A digit-free prefix is skipped and the first digit run is returned
whole: the regular-expression match `/(\d+)/` on a decomposed list. -/
theorem firstDigitRun_decomposition (pre run post : List Char)
    (hpre : ∀ c ∈ pre, c.isDigit = false)
    (hrun : run ≠ [])
    (hdig : ∀ c ∈ run, c.isDigit = true)
    (hpost : ∀ c ∈ post.take 1, c.isDigit = false) :
    firstDigitRun (pre ++ run ++ post) = some run := by
  induction pre with
  | nil =>
    cases run with
    | nil => exact absurd rfl hrun
    | cons r rs =>
      have hr : r.isDigit = true := hdig r (by simp)
      simp only [List.nil_append, List.cons_append, firstDigitRun, hr, if_true,
        Option.some.injEq, List.cons.injEq, true_and]
      exact takeWhile_append_of_all Char.isDigit rs post
        (fun c hc => hdig c (by simp [hc])) hpost
  | cons p0 pre' ih =>
    have hp0 : p0.isDigit = false := hpre p0 (by simp)
    simp only [List.cons_append, firstDigitRun, hp0, Bool.false_eq_true, if_false]
    exact ih (fun c hc => hpre c (by simp [hc]))

/-- A list without digits has no digit run. -/
theorem firstDigitRun_eq_none (l : List Char) (h : ∀ c ∈ l, c.isDigit = false) :
    firstDigitRun l = none := by
  induction l with
  | nil => rfl
  | cons c cs ih =>
    have hc : c.isDigit = false := h c (by simp)
    simp only [firstDigitRun, hc, Bool.false_eq_true, if_false]
    exact ih (fun d hd => h d (by simp [hd]))

/-- C6: the normalizer maps a label containing a digit to `speaker`
followed by its first embedded digit run parsed and zero-padded to at least
two digits, maps a digit-free label to `speaker` followed by the padded
hash-derived number `hash % 10 + 1`, and is a deterministic function of the
raw label. -/
theorem normalize_label_spec :
    (∀ (label : String) (pre run post : List Char),
        label.data = pre ++ run ++ post →
        (∀ c ∈ pre, c.isDigit = false) →
        run ≠ [] →
        (∀ c ∈ run, c.isDigit = true) →
        (∀ c ∈ post.take 1, c.isDigit = false) →
        normalizeSpeakerLabel label =
          "speaker" ++ padStart (Nat.repr (digitsToNat run)) 2 '0') ∧
    (∀ label : String, (∀ c ∈ label.data, c.isDigit = false) →
        normalizeSpeakerLabel label =
          "speaker" ++ padStart (Nat.repr (hashString label % 10 + 1)) 2 '0') ∧
    (∀ l1 l2 : String, l1 = l2 → normalizeSpeakerLabel l1 = normalizeSpeakerLabel l2) ∧
    normalizeSpeakerLabel "SPEAKER_07" = "speaker07" := by
  refine ⟨?_, ?_, ?_, by decide⟩
  · intro label pre run post hdata hpre hrun hdig hpost
    unfold normalizeSpeakerLabel
    rw [hdata, firstDigitRun_decomposition pre run post hpre hrun hdig hpost]
  · intro label h
    unfold normalizeSpeakerLabel
    rw [firstDigitRun_eq_none label.data h]
  · intro l1 l2 h
    rw [h]

/-- Witness for C6 at the spec's own example `"SPEAKER_07"` and at a
digit-free label. -/
theorem normalize_label_spec_witness :
    normalizeSpeakerLabel "SPEAKER_07" =
      "speaker" ++ padStart (Nat.repr (digitsToNat ['0', '7'])) 2 '0' ∧
    normalizeSpeakerLabel "Alice" =
      "speaker" ++ padStart (Nat.repr (hashString "Alice" % 10 + 1)) 2 '0' := by
  constructor
  · exact normalize_label_spec.1 "SPEAKER_07" "SPEAKER_".data ['0', '7'] []
      (by decide) (by decide) (by decide) (by decide) (by decide)
  · exact normalize_label_spec.2.1 "Alice" (by decide)

/-! ## Confidence bounds -/

/-- The clamped intersection length is never negative. -/
theorem calculateOverlap_nonneg (s1 e1 s2 e2 : ℚ) :
    0 ≤ calculateOverlap s1 e1 s2 e2 :=
  le_max_left 0 _

/-- The clamped intersection length never exceeds the first segment's
duration when that segment is well-formed. -/
theorem calculateOverlap_le_duration (s1 e1 s2 e2 : ℚ) (h : s1 ≤ e1) :
    calculateOverlap s1 e1 s2 e2 ≤ e1 - s1 := by
  unfold calculateOverlap
  apply max_le
  · linarith
  · have h1 : min e1 e2 ≤ e1 := min_le_left _ _
    have h2 : s1 ≤ max s1 s2 := le_max_left _ _
    linarith

/-- The running maximum of the best-match scan stays between 0 and the
transcription segment's duration. -/
theorem findBestMatch_snd_bounds (t : TranscriptionSegment)
    (diarization : List DiarizationSegment) (h : t.start ≤ t.«end») :
    0 ≤ (findBestMatch t diarization).2 ∧
      (findBestMatch t diarization).2 ≤ t.«end» - t.start := by
  suffices H : ∀ (l : List DiarizationSegment) (acc : Option DiarizationSegment × ℚ),
      0 ≤ acc.2 → acc.2 ≤ t.«end» - t.start →
      0 ≤ (l.foldl (bestMatchStep t) acc).2 ∧
        (l.foldl (bestMatchStep t) acc).2 ≤ t.«end» - t.start by
    exact H diarization (none, 0) le_rfl (by simpa using sub_nonneg.mpr h)
  intro l
  induction l with
  | nil => exact fun acc h1 h2 => ⟨h1, h2⟩
  | cons d ds ih =>
    intro acc h1 h2
    rw [List.foldl_cons]
    apply ih
    · unfold bestMatchStep
      dsimp only
      split
      · exact calculateOverlap_nonneg _ _ _ _
      · exact h1
    · unfold bestMatchStep
      dsimp only
      split
      · exact calculateOverlap_le_duration _ _ _ _ h
      · exact h2

/-- Every segment emitted for one transcription segment by the alignment
branch has confidence in `[0, 1]`, given a well-formed segment and a
non-negative overlap threshold. -/
theorem alignSegment_confidence_bounds (overlapThreshold confidenceThreshold : ℚ)
    (diarization : List DiarizationSegment) (t : TranscriptionSegment)
    (ht : t.start ≤ t.«end») (hothr : 0 ≤ overlapThreshold) :
    ∀ s ∈ alignSegment overlapThreshold confidenceThreshold diarization t,
      0 ≤ s.confidence ∧ s.confidence ≤ 1 := by
  intro s hs
  have hb := findBestMatch_snd_bounds t diarization ht
  unfold alignSegment at hs
  rcases hfb : findBestMatch t diarization with ⟨b, mo⟩
  rw [hfb] at hs hb
  obtain ⟨hmo0, hmole⟩ := hb
  cases b with
  | none =>
    simp only [List.mem_singleton] at hs
    subst hs
    exact ⟨le_refl 0, by norm_num [unknownSegment]⟩
  | some bm =>
    by_cases hover : overlapThreshold < mo
    · by_cases hconf : confidenceThreshold ≤ mo / (t.«end» - t.start)
      · simp only [if_pos hover, if_pos hconf, List.mem_singleton] at hs
        subst hs
        have hdur : 0 < t.«end» - t.start :=
          lt_of_lt_of_le (lt_of_le_of_lt hothr hover) hmole
        constructor
        · exact div_nonneg hmo0 (le_of_lt hdur)
        · exact (div_le_one hdur).mpr hmole
      · simp only [if_pos hover, if_neg hconf, List.not_mem_nil] at hs
    · simp only [if_neg hover, List.mem_singleton] at hs
      subst hs
      exact ⟨le_refl 0, by norm_num [unknownSegment]⟩

/-- The synthetic pseudo-segment end is at least 20. -/
theorem fallbackEnd_ge (diarization : List DiarizationSegment) :
    (20 : ℚ) ≤ fallbackEnd diarization := by
  suffices H : ∀ (l : List DiarizationSegment) (a : ℚ),
      a ≤ l.foldl (fun m d => max m d.«end») a from H diarization 20
  intro l
  induction l with
  | nil => exact fun a => le_refl a
  | cons d ds ih =>
    intro a
    rw [List.foldl_cons]
    exact (le_max_left a d.«end»).trans (ih (max a d.«end»))

/-- The segments actually fed to the alignment loop are all well-formed
when the provided ones are: the synthetic fallback runs from 0 to at least
20. -/
theorem transcriptionSegmentsOf_wf (transcription : TranscriptionResult)
    (diarization : List DiarizationSegment)
    (h : ∀ t ∈ transcription.segments.getD [], t.start ≤ t.«end») :
    ∀ t ∈ transcriptionSegmentsOf transcription diarization,
      t.start ≤ t.«end» := by
  intro t ht
  unfold transcriptionSegmentsOf at ht
  cases hseg : transcription.segments with
  | none =>
    rw [hseg] at ht
    dsimp only at ht
    simp only [List.mem_singleton] at ht
    subst ht
    exact le_trans (by norm_num) (fallbackEnd_ge diarization)
  | some segs =>
    rw [hseg] at ht
    dsimp only at ht
    by_cases h0 : 0 < segs.length
    · rw [if_pos h0] at ht
      exact h t (by simpa [hseg] using ht)
    · rw [if_neg h0] at ht
      simp only [List.mem_singleton] at ht
      subst ht
      exact le_trans (by norm_num) (fallbackEnd_ge diarization)

/-- Every segment of the pre-merge alignment output has confidence in
`[0, 1]`. -/
theorem alignSegments_confidence_bounds (overlapThreshold confidenceThreshold : ℚ)
    (transcriptionSegments : List TranscriptionSegment)
    (diarization : List DiarizationSegment)
    (hsegs : ∀ t ∈ transcriptionSegments, t.start ≤ t.«end»)
    (hothr : 0 ≤ overlapThreshold) :
    ∀ s ∈ alignSegments overlapThreshold confidenceThreshold
        transcriptionSegments diarization,
      0 ≤ s.confidence ∧ s.confidence ≤ 1 := by
  intro s hs
  unfold alignSegments at hs
  rw [List.mem_flatten] at hs
  obtain ⟨l, hl, hsl⟩ := hs
  rw [List.mem_map] at hl
  obtain ⟨t, htmem, rfl⟩ := hl
  exact alignSegment_confidence_bounds overlapThreshold confidenceThreshold
    diarization t (hsegs t htmem) hothr s hsl

/-- The merge scan preserves the `[0, 1]` confidence window: the minimum of
two in-window confidences stays in the window. -/
theorem mergeLoop_confidence_mem (mergeThreshold : ℚ) (l : List SpeakerSegment)
    (current : SpeakerSegment)
    (hc : 0 ≤ current.confidence ∧ current.confidence ≤ 1)
    (hl : ∀ x ∈ l, 0 ≤ x.confidence ∧ x.confidence ≤ 1) :
    ∀ y ∈ mergeLoop mergeThreshold current l,
      0 ≤ y.confidence ∧ y.confidence ≤ 1 := by
  induction l generalizing current with
  | nil =>
    intro y hy
    simp only [mergeLoop, List.mem_singleton] at hy
    subst hy
    exact hc
  | cons segment rest ih =>
    intro y hy
    have hseg := hl segment (by simp)
    have hrest : ∀ x ∈ rest, 0 ≤ x.confidence ∧ x.confidence ≤ 1 :=
      fun x hx => hl x (by simp [hx])
    by_cases h : current.speaker = segment.speaker ∧
        segment.start - current.«end» < mergeThreshold
    · rw [mergeLoop, if_pos h] at hy
      refine ih _ ⟨?_, ?_⟩ hrest y hy
      · exact le_min hc.1 hseg.1
      · exact (min_le_left _ _).trans hc.2
    · rw [mergeLoop, if_neg h] at hy
      rcases List.mem_cons.mp hy with hcur | htail
      · subst hcur
        exact hc
      · exact ih segment hseg hrest y htail

/-- C7: with well-formed transcription segments and diarization spans, a
non-negative overlap threshold and a confidence threshold in `[0, 1]`,
every segment returned by the aligner (after the min-taking merge pass)
has confidence in `[0, 1]`. -/
theorem align_confidence_bounds (transcription : TranscriptionResult)
    (diarization : List DiarizationSegment) (options : AlignmentOptions)
    (htrans : ∀ t ∈ transcription.segments.getD [], t.start ≤ t.«end»)
    (hdiar : ∀ d ∈ diarization, d.start ≤ d.«end»)
    (hothr : 0 ≤ options.overlapThreshold)
    (hcthr : 0 ≤ options.confidenceThreshold ∧ options.confidenceThreshold ≤ 1)
    (s : SpeakerSegment)
    (hs : s ∈ alignTranscriptionWithSpeakers transcription diarization options) :
    0 ≤ s.confidence ∧ s.confidence ≤ 1 := by
  unfold alignTranscriptionWithSpeakers at hs
  have hpre := alignSegments_confidence_bounds options.overlapThreshold
    options.confidenceThreshold (transcriptionSegmentsOf transcription diarization)
    diarization (transcriptionSegmentsOf_wf transcription diarization htrans) hothr
  cases hp : alignSegments options.overlapThreshold options.confidenceThreshold
      (transcriptionSegmentsOf transcription diarization) diarization with
  | nil =>
    rw [hp] at hs
    simp [postProcessAlignment] at hs
  | cons x rest =>
    rw [hp] at hs
    simp only [postProcessAlignment] at hs
    exact mergeLoop_confidence_mem options.mergeThreshold rest x
      (hpre x (hp ▸ List.mem_cons_self x rest))
      (fun z hz => hpre z (hp ▸ List.mem_cons_of_mem x hz)) s hs

/-- Witness for C7 on the concrete alignment scenario: the single output
segment carries confidence 1/2, inside `[0, 1]`. -/
theorem align_confidence_bounds_witness :
    alignTranscriptionWithSpeakers witnessTranscription witnessDiarization {} =
      [⟨"hi", "speaker06", 0, 10, 1/2⟩] ∧
    0 ≤ (SpeakerSegment.mk "hi" "speaker06" 0 10 (1/2)).confidence ∧
    (SpeakerSegment.mk "hi" "speaker06" 0 10 (1/2)).confidence ≤ 1 := by
  have heval : alignTranscriptionWithSpeakers witnessTranscription witnessDiarization {} =
      [⟨"hi", "speaker06", 0, 10, 1/2⟩] := by
    norm_num [alignTranscriptionWithSpeakers, witnessTranscription, witnessDiarization,
      transcriptionSegmentsOf, alignSegments, alignSegment, findBestMatch, bestMatchStep,
      calculateOverlap, postProcessAlignment, mergeLoop, normalizeSpeakerLabel,
      firstDigitRun, hashString, hashStep, toInt32, padStart, digitsToNat]
    decide
  refine ⟨heval, ?_⟩
  exact align_confidence_bounds witnessTranscription witnessDiarization {}
    (by decide) (by norm_num [witnessDiarization]) (by norm_num) (by norm_num)
    ⟨"hi", "speaker06", 0, 10, 1/2⟩ (heval ▸ List.mem_singleton.mpr rfl)

/-! ## Timestamp formatting -/

/-- JavaScript `%` stays in `[0, b)` for a non-negative dividend and a
positive divisor. -/
theorem jsMod_bounds (a b : ℚ) (ha : 0 ≤ a) (hb : 0 < b) :
    0 ≤ jsMod a b ∧ jsMod a b < b := by
  have h1 : ((⌊a / b⌋ : ℤ) : ℚ) ≤ a / b := Int.floor_le _
  have h2 : a / b < (⌊a / b⌋ : ℤ) + 1 := Int.lt_floor_add_one _
  have key : b * (a / b) = a := by field_simp
  have h1' : b * ((⌊a / b⌋ : ℤ) : ℚ) ≤ a := by
    calc b * ((⌊a / b⌋ : ℤ) : ℚ) ≤ b * (a / b) :=
          mul_le_mul_of_nonneg_left h1 (le_of_lt hb)
    _ = a := key
  have h2' : a < b * (((⌊a / b⌋ : ℤ) : ℚ) + 1) := by
    calc a = b * (a / b) := key.symm
    _ < b * (((⌊a / b⌋ : ℤ) : ℚ) + 1) := by
          exact mul_lt_mul_of_pos_left h2 hb
  unfold jsMod
  constructor
  · linarith
  · nlinarith

/-- The length of a left-padded string is the maximum of the target length
and the original length. -/
theorem padStart_length (s : String) (n : Nat) (c : Char) :
    (padStart s n c).length = max n s.length := by
  unfold padStart
  rw [String.length_append]
  show (List.replicate (n - s.length) c).length + s.length = max n s.length
  rw [List.length_replicate]
  omega

/-- Decimal representations of numbers below 100 need at most two
characters. -/
theorem repr_length_le_two : ∀ n < 100, (Nat.repr n).length ≤ 2 := by decide

set_option maxRecDepth 10000 in
/-- Decimal representations of numbers below 1000 need at most three
characters. -/
theorem repr_length_le_three : ∀ n < 1000, (Nat.repr n).length ≤ 3 := by decide

/-- C8: for every non-negative seconds value the shared timestamp formatter
renders the floor-computed hour, minute, second and millisecond fields,
zero-padded to widths 2, 2, 2 and 3, joined as `HH:MM:SS.mmm` for VTT and
`HH:MM:SS,mmm` for SRT; minutes and seconds stay below 60 and milliseconds
below 1000, so those fields are exactly 2, 2 and 3 characters wide. -/
theorem format_timestamp_spec (seconds : ℚ) (h : 0 ≤ seconds) :
    (formatTimestamp seconds false =
      padStart (Nat.repr (⌊seconds / 3600⌋).toNat) 2 '0' ++ ":" ++
      padStart (Nat.repr (⌊jsMod seconds 3600 / 60⌋).toNat) 2 '0' ++ ":" ++
      padStart (Nat.repr (⌊jsMod seconds 60⌋).toNat) 2 '0' ++ "." ++
      padStart (Nat.repr (⌊jsMod seconds 1 * 1000⌋).toNat) 3 '0') ∧
    (formatTimestamp seconds true =
      padStart (Nat.repr (⌊seconds / 3600⌋).toNat) 2 '0' ++ ":" ++
      padStart (Nat.repr (⌊jsMod seconds 3600 / 60⌋).toNat) 2 '0' ++ ":" ++
      padStart (Nat.repr (⌊jsMod seconds 60⌋).toNat) 2 '0' ++ "," ++
      padStart (Nat.repr (⌊jsMod seconds 1 * 1000⌋).toNat) 3 '0') ∧
    (⌊jsMod seconds 3600 / 60⌋).toNat < 60 ∧
    (⌊jsMod seconds 60⌋).toNat < 60 ∧
    (⌊jsMod seconds 1 * 1000⌋).toNat < 1000 ∧
    (padStart (Nat.repr (⌊jsMod seconds 3600 / 60⌋).toNat) 2 '0').length = 2 ∧
    (padStart (Nat.repr (⌊jsMod seconds 60⌋).toNat) 2 '0').length = 2 ∧
    (padStart (Nat.repr (⌊jsMod seconds 1 * 1000⌋).toNat) 3 '0').length = 3 ∧
    2 ≤ (padStart (Nat.repr (⌊seconds / 3600⌋).toNat) 2 '0').length := by
  obtain ⟨hm0, hmlt⟩ := jsMod_bounds seconds 3600 h (by norm_num)
  obtain ⟨hs0, hslt⟩ := jsMod_bounds seconds 60 h (by norm_num)
  obtain ⟨hms0, hmslt⟩ := jsMod_bounds seconds 1 h (by norm_num)
  have hmin : (⌊jsMod seconds 3600 / 60⌋).toNat < 60 := by
    have hlt : ⌊jsMod seconds 3600 / 60⌋ < 60 := by
      rw [Int.floor_lt]
      rw [div_lt_iff (by norm_num : (0:ℚ) < 60)]
      push_cast
      linarith
    omega
  have hsec : (⌊jsMod seconds 60⌋).toNat < 60 := by
    have hlt : ⌊jsMod seconds 60⌋ < 60 := by
      rw [Int.floor_lt]
      push_cast
      linarith
    omega
  have hmsb : (⌊jsMod seconds 1 * 1000⌋).toNat < 1000 := by
    have hlt : ⌊jsMod seconds 1 * 1000⌋ < 1000 := by
      rw [Int.floor_lt]
      push_cast
      linarith
    omega
  refine ⟨rfl, rfl, hmin, hsec, hmsb, ?_, ?_, ?_, ?_⟩
  · rw [padStart_length]
    have := repr_length_le_two _ (by omega : (⌊jsMod seconds 3600 / 60⌋).toNat < 100)
    omega
  · rw [padStart_length]
    have := repr_length_le_two _ (by omega : (⌊jsMod seconds 60⌋).toNat < 100)
    omega
  · rw [padStart_length]
    have := repr_length_le_three _ hmsb
    omega
  · rw [padStart_length]
    omega

/-- Witness for C8 at 3661.5 seconds: one hour, one minute, one second and
500 milliseconds in both punctuation conventions. -/
theorem format_timestamp_witness :
    formatTimestamp (7323/2) false = "01:01:01.500" ∧
    formatTimestamp (7323/2) true = "01:01:01,500" := by
  have h := format_timestamp_spec (7323/2) (by norm_num)
  constructor
  · rw [h.1]
    norm_num [jsMod]
    decide
  · rw [h.2.1]
    norm_num [jsMod]
    decide

/-! ## Plain-text overlap heuristic -/

/-- Floor of a tenth over the rationals is natural division by ten. -/
theorem floor_tenth (n : ℕ) : ⌊(n : ℚ) * (1/10)⌋₊ = n / 10 := by
  have h10 : ((10:ℕ):ℚ) = (10:ℚ) := by norm_cast
  rw [mul_one_div, ← h10, Nat.floor_div_nat, Nat.floor_natCast]

/-- C9: the plain-text heuristic drops blank lines, strips the first
`min(2, lineCount/10)` of the remaining lines (so nothing at all below ten
lines) and returns the text untouched only through its at-most-one-line
guard; and the assembler applies it to every non-first chunk's text even
when that chunk carries timed segments, as the concrete two-chunk scenario
shows on both the text and the segment list. -/
theorem text_heuristic_spec :
    (∀ (text : String) (overlapSeconds : ℚ),
        removeOverlapText text overlapSeconds =
          (if ((splitLines text.data).filter (fun line => trimChars line ≠ [])).length ≤ 1
           then text
           else String.mk (joinLines
             (((splitLines text.data).filter (fun line => trimChars line ≠ [])).drop
               (min 2 (((splitLines text.data).filter
                 (fun line => trimChars line ≠ [])).length / 10)))))) ∧
    (assembleTranscriptions [heuristicChunk0, heuristicChunk1]
        { overlapSeconds := 2 }).text = "c0 l2\nl3\nl4\nl5\nl6\nl7\nl8\nl9\nl10" ∧
    (assembleTranscriptions [heuristicChunk0, heuristicChunk1]
        { overlapSeconds := 2 }).segments = some [⟨0, 5, "a"⟩, ⟨8, 11, "b"⟩] := by
  refine ⟨?_, ?_, ?_⟩
  · intro text overlapSeconds
    simp only [removeOverlapText, floor_tenth]
  · norm_num [assembleTranscriptions, heuristicChunk0, heuristicChunk1, heuristicText,
      sortByIndex, insertByIdx, assembleLoop, assembleChunkStep, adjustSegmentTimestamps,
      removeOverlapSegments, removeOverlapText, floor_tenth, splitLines, trimChars,
      joinLines, jsTrim, endsWithSpace, startsWithSpace, List.findIdx?, List.getLast?]
    decide
  · norm_num [assembleTranscriptions, heuristicChunk0, heuristicChunk1, heuristicText,
      sortByIndex, insertByIdx, assembleLoop, assembleChunkStep, adjustSegmentTimestamps,
      removeOverlapSegments, removeOverlapText, floor_tenth, splitLines, trimChars,
      joinLines, jsTrim, endsWithSpace, startsWithSpace, List.findIdx?, List.getLast?]

/-! ## Output label shapes -/

/-- Digit characters for values below ten. -/
theorem digitChar_isDigit : ∀ k < 10, (Nat.digitChar k).isDigit = true := by decide

/-- Every character pushed by the base-10 digit loop is a decimal digit. -/
theorem toDigitsCore_all_digits (fuel : ℕ) :
    ∀ (n : ℕ) (ds : List Char), (∀ c ∈ ds, c.isDigit = true) →
      ∀ c ∈ Nat.toDigitsCore 10 fuel n ds, c.isDigit = true := by
  induction fuel with
  | zero =>
    intro n ds hds c hc
    exact hds c hc
  | succ f ih =>
    intro n ds hds c hc
    rw [Nat.toDigitsCore] at hc
    have hd : (Nat.digitChar (n % 10)).isDigit = true :=
      digitChar_isDigit _ (Nat.mod_lt _ (by norm_num))
    have hcons : ∀ x ∈ Nat.digitChar (n % 10) :: ds, x.isDigit = true := by
      intro x hx
      rcases List.mem_cons.mp hx with h | h
      · exact h ▸ hd
      · exact hds x h
    by_cases h0 : n / 10 = 0
    · rw [if_pos h0] at hc
      exact hcons c hc
    · rw [if_neg h0] at hc
      exact ih (n / 10) _ hcons c hc

/-- The decimal representation of a natural number consists of digits
only. -/
theorem repr_all_digits (n : ℕ) : ∀ c ∈ (Nat.repr n).data, c.isDigit = true := by
  intro c hc
  have h : c ∈ Nat.toDigitsCore 10 (n+1) n [] := by
    simpa [Nat.repr, Nat.toDigits, List.asString] using hc
  exact toDigitsCore_all_digits (n+1) n [] (by simp) c h

/-- Both normalizer branches produce `speaker` followed by at least two
decimal digits. -/
theorem isNormalizedLabel_normalize (label : String) :
    isNormalizedLabel (normalizeSpeakerLabel label) = true := by
  suffices H : ∀ k : ℕ,
      isNormalizedLabel ("speaker" ++ padStart (Nat.repr k) 2 '0') = true by
    unfold normalizeSpeakerLabel
    cases firstDigitRun label.data with
    | none => exact H _
    | some ds => exact H _
  intro k
  have hdata : ("speaker" ++ padStart (Nat.repr k) 2 '0').data =
      's' :: 'p' :: 'e' :: 'a' :: 'k' :: 'e' :: 'r' ::
        (List.replicate (2 - (Nat.repr k).length) '0' ++ (Nat.repr k).data) := rfl
  have hlen : 2 ≤ (List.replicate (2 - (Nat.repr k).length) '0' ++
      (Nat.repr k).data).length := by
    rw [List.length_append, List.length_replicate]
    have : (Nat.repr k).data.length = (Nat.repr k).length := rfl
    omega
  have hdig : (List.replicate (2 - (Nat.repr k).length) '0' ++
      (Nat.repr k).data).all Char.isDigit = true := by
    rw [List.all_eq_true]
    intro c hc
    rcases List.mem_append.mp hc with h | h
    · rw [List.eq_of_mem_replicate h]
      decide
    · exact repr_all_digits k c h
  unfold isNormalizedLabel
  rw [hdata]
  simp only [hdig, decide_eq_true hlen, Bool.and_self, Bool.or_true]

/-- Every pre-merge segment's speaker is the sentinel or a normalized
label. -/
theorem alignSegment_speaker_shape (overlapThreshold confidenceThreshold : ℚ)
    (diarization : List DiarizationSegment) (t : TranscriptionSegment) :
    ∀ s ∈ alignSegment overlapThreshold confidenceThreshold diarization t,
      s.speaker = "speaker_unknown" ∨
        ∃ lbl, s.speaker = normalizeSpeakerLabel lbl := by
  intro s hs
  unfold alignSegment at hs
  rcases hfb : findBestMatch t diarization with ⟨b, mo⟩
  rw [hfb] at hs
  cases b with
  | none =>
    simp only [List.mem_singleton] at hs
    subst hs
    exact Or.inl rfl
  | some bm =>
    by_cases hover : overlapThreshold < mo
    · by_cases hconf : confidenceThreshold ≤ mo / (t.«end» - t.start)
      · simp only [if_pos hover, if_pos hconf, List.mem_singleton] at hs
        subst hs
        exact Or.inr ⟨bm.speaker, rfl⟩
      · simp only [if_pos hover, if_neg hconf, List.not_mem_nil] at hs
    · simp only [if_neg hover, List.mem_singleton] at hs
      subst hs
      exact Or.inl rfl

/-- The merge scan only ever emits speakers that were already present (the
accumulator's or some input segment's). -/
theorem mergeLoop_speaker_mem (mergeThreshold : ℚ) (l : List SpeakerSegment)
    (current : SpeakerSegment) :
    ∀ y ∈ mergeLoop mergeThreshold current l,
      y.speaker = current.speaker ∨ ∃ x ∈ l, y.speaker = x.speaker := by
  induction l generalizing current with
  | nil =>
    intro y hy
    simp only [mergeLoop, List.mem_singleton] at hy
    subst hy
    exact Or.inl rfl
  | cons segment rest ih =>
    intro y hy
    by_cases h : current.speaker = segment.speaker ∧
        segment.start - current.«end» < mergeThreshold
    · rw [mergeLoop, if_pos h] at hy
      rcases ih _ y hy with hcur | ⟨x, hx, hxs⟩
      · exact Or.inl hcur
      · exact Or.inr ⟨x, by simp [hx], hxs⟩
    · rw [mergeLoop, if_neg h] at hy
      rcases List.mem_cons.mp hy with hcur | htail
      · exact Or.inl (by rw [hcur])
      · rcases ih segment y htail with hseg | ⟨x, hx, hxs⟩
        · exact Or.inr ⟨segment, by simp, hseg⟩
        · exact Or.inr ⟨x, by simp [hx], hxs⟩

/-- C10: every speaker label in the aligner's output is either the exact
sentinel `"speaker_unknown"` or `"speaker"` followed by at least two
decimal digits, for every input and configuration. -/
theorem align_label_shape (transcription : TranscriptionResult)
    (diarization : List DiarizationSegment) (options : AlignmentOptions)
    (s : SpeakerSegment)
    (hs : s ∈ alignTranscriptionWithSpeakers transcription diarization options) :
    isNormalizedLabel s.speaker = true := by
  unfold alignTranscriptionWithSpeakers at hs
  have hpre : ∀ z ∈ alignSegments options.overlapThreshold
      options.confidenceThreshold
      (transcriptionSegmentsOf transcription diarization) diarization,
      isNormalizedLabel z.speaker = true := by
    intro z hz
    unfold alignSegments at hz
    rw [List.mem_flatten] at hz
    obtain ⟨l, hl, hzl⟩ := hz
    rw [List.mem_map] at hl
    obtain ⟨t, htmem, rfl⟩ := hl
    rcases alignSegment_speaker_shape options.overlapThreshold
        options.confidenceThreshold diarization t z hzl with h | ⟨lbl, h⟩
    · rw [h]
      decide
    · rw [h]
      exact isNormalizedLabel_normalize lbl
  cases hp : alignSegments options.overlapThreshold options.confidenceThreshold
      (transcriptionSegmentsOf transcription diarization) diarization with
  | nil =>
    rw [hp] at hs
    simp [postProcessAlignment] at hs
  | cons x rest =>
    rw [hp] at hs
    simp only [postProcessAlignment] at hs
    rcases mergeLoop_speaker_mem options.mergeThreshold rest x s hs with h | ⟨z, hz, h⟩
    · rw [h]
      exact hpre x (hp ▸ List.mem_cons_self x rest)
    · rw [h]
      exact hpre z (hp ▸ List.mem_cons_of_mem x hz)

/-- Witness for C10 on the concrete alignment scenario's single output
segment. -/
theorem align_label_shape_witness :
    isNormalizedLabel (SpeakerSegment.mk "hi" "speaker06" 0 10 (1/2)).speaker = true := by
  have heval : alignTranscriptionWithSpeakers witnessTranscription witnessDiarization {} =
      [⟨"hi", "speaker06", 0, 10, 1/2⟩] := by
    norm_num [alignTranscriptionWithSpeakers, witnessTranscription, witnessDiarization,
      transcriptionSegmentsOf, alignSegments, alignSegment, findBestMatch, bestMatchStep,
      calculateOverlap, postProcessAlignment, mergeLoop, normalizeSpeakerLabel,
      firstDigitRun, hashString, hashStep, toInt32, padStart, digitsToNat]
    decide
  exact align_label_shape witnessTranscription witnessDiarization {}
    ⟨"hi", "speaker06", 0, 10, 1/2⟩ (heval ▸ List.mem_singleton.mpr rfl)
